import Mathlib

/-!
Shallow embedding of the FVO steering core of `bevy_fvo` (`src/fvo.rs`,
`src/components.rs`).  `f32` values are modelled as real numbers; the constant
`f32::EPSILON` is modelled exactly as `2⁻²³`.  Vector operations mirror the
`glam` functions used by the source (`length`, `length_squared`,
`normalize_or_zero`, `clamp_length_max`, `distance`, `distance_squared`).
-/

noncomputable section

open Classical

/-- The machine epsilon of `f32`, namely `2⁻²³`, used by the source as
`f32::EPSILON`. -/
def f32Epsilon : ℝ := 1 / 2 ^ 23

/-- Planar vector, as `glam::Vec2`. -/
@[ext] structure Vec2 where
  x : ℝ
  y : ℝ

/-- World-space vector, as `glam::Vec3`; `y` is the up axis ignored by the
planar math. -/
@[ext] structure Vec3 where
  x : ℝ
  y : ℝ
  z : ℝ

def Vec2.add (a b : Vec2) : Vec2 := ⟨a.x + b.x, a.y + b.y⟩

def Vec2.sub (a b : Vec2) : Vec2 := ⟨a.x - b.x, a.y - b.y⟩

def Vec2.smul (s : ℝ) (v : Vec2) : Vec2 := ⟨s * v.x, s * v.y⟩

def Vec2.dot (a b : Vec2) : ℝ := a.x * b.x + a.y * b.y

def Vec2.lengthSq (v : Vec2) : ℝ := v.x * v.x + v.y * v.y

def Vec2.length (v : Vec2) : ℝ := Real.sqrt v.lengthSq

/-- `glam::Vec2::normalize_or_zero`: the unit vector in the same direction, or
zero when the length is not positive. -/
def Vec2.normalizeOrZero (v : Vec2) : Vec2 :=
  if 0 < v.length then Vec2.smul v.length⁻¹ v else ⟨0, 0⟩

def Vec3.zero : Vec3 := ⟨0, 0, 0⟩

def Vec3.add (a b : Vec3) : Vec3 := ⟨a.x + b.x, a.y + b.y, a.z + b.z⟩

def Vec3.sub (a b : Vec3) : Vec3 := ⟨a.x - b.x, a.y - b.y, a.z - b.z⟩

def Vec3.smul (s : ℝ) (v : Vec3) : Vec3 := ⟨s * v.x, s * v.y, s * v.z⟩

def Vec3.dot (a b : Vec3) : ℝ := a.x * b.x + a.y * b.y + a.z * b.z

def Vec3.lengthSq (v : Vec3) : ℝ := v.x * v.x + v.y * v.y + v.z * v.z

def Vec3.length (v : Vec3) : ℝ := Real.sqrt v.lengthSq

/-- `glam::Vec3::distance_squared` of `a` and `b`: squared length of `a - b`. -/
def Vec3.distSq (a b : Vec3) : ℝ := (Vec3.sub a b).lengthSq

/-- `glam::Vec3::distance` of `a` and `b`. -/
def Vec3.dist (a b : Vec3) : ℝ := Real.sqrt (Vec3.distSq a b)

/-- `glam::Vec3::normalize_or_zero`. -/
def Vec3.normalizeOrZero (v : Vec3) : Vec3 :=
  if 0 < v.length then Vec3.smul v.length⁻¹ v else Vec3.zero

/-- `glam::Vec3::clamp_length_max`: when the squared length exceeds `m * m`
the vector is rescaled to length `m` (for nonnegative `m`), otherwise it is
returned unchanged. -/
def Vec3.clampLengthMax (v : Vec3) (m : ℝ) : Vec3 :=
  if m * m < v.lengthSq then Vec3.smul (m / v.length) v else v

/-- The per-agent tunable parameters, `FvoSettings` from `components.rs`. -/
structure FvoSettings where
  preferredSpeed : ℝ
  maxSpeed : ℝ
  maxAccel : ℝ
  horizon : ℝ
  radius : ℝ
  sensorRange : ℝ

/-- The per-agent state read and written by the steering pass: the transform
translation plus the `FvoAgent` velocity and settings. -/
structure AgentState where
  pos : Vec3
  vel : Vec3
  settings : FvoSettings

/-- A half-plane velocity constraint, `OrcaConstraint` from `fvo.rs`. -/
structure OrcaConstraint where
  point : Vec2
  normal : Vec2

/-- A neighbor snapshot entry as used in the solve: position, velocity and
radius. -/
abbrev Neighbor : Type := Vec3 × Vec3 × ℝ

/-- A spatial-hash snapshot entry: entity identifier, position, velocity and
radius. -/
abbrev SnapEntry : Type := ℕ × Vec3 × Vec3 × ℝ

/-- One constraint of `build_orca_constraints`, computed for a single neighbor
from the relative planar position and velocity. -/
def buildConstraint (currentPos currentVel : Vec3) (settings : FvoSettings)
    (invTau invDt : ℝ) (n : Neighbor) : OrcaConstraint :=
  let selfVel : Vec2 := ⟨currentVel.x, currentVel.z⟩
  let relPos : Vec2 := ⟨n.1.x - currentPos.x, n.1.z - currentPos.z⟩
  let relVel : Vec2 := ⟨currentVel.x - n.2.1.x, currentVel.z - n.2.1.z⟩
  let combinedRadius := settings.radius + n.2.2
  let combinedRadiusSq := combinedRadius * combinedRadius
  let distSq := relPos.lengthSq
  let su : Vec2 × Vec2 :=
    if combinedRadiusSq < distSq then
      let w := Vec2.sub relVel (Vec2.smul invTau relPos)
      let wLenSq := w.lengthSq
      let d := Vec2.dot w relPos
      if d < 0 ∧ combinedRadiusSq * wLenSq < d * d then
        let wLen := Real.sqrt wLenSq
        let unitW := Vec2.smul wLen⁻¹ w
        (Vec2.smul (combinedRadius * invTau - wLen) unitW, unitW)
      else
        let dist := Real.sqrt distSq
        let leg := Real.sqrt (distSq - combinedRadiusSq)
        let rpu := Vec2.smul dist⁻¹ relPos
        let left := Vec2.smul dist⁻¹
          ⟨rpu.x * leg - rpu.y * combinedRadius, rpu.x * combinedRadius + rpu.y * leg⟩
        let right := Vec2.smul dist⁻¹
          ⟨rpu.x * leg + rpu.y * combinedRadius, -rpu.x * combinedRadius + rpu.y * leg⟩
        let cross := relVel.x * relPos.y - relVel.y * relPos.x
        let dir := if 0 < cross then left else right
        let nrm := Vec2.normalizeOrZero ⟨-dir.y, dir.x⟩
        (Vec2.smul (Vec2.dot relVel nrm) nrm, nrm)
    else
      let dist := max (Real.sqrt distSq) 0.001
      let nrm := Vec2.smul dist⁻¹ relPos
      (Vec2.smul ((combinedRadius - dist) * invDt) nrm, nrm)
  ⟨Vec2.add selfVel su.1, su.2⟩

/-- `build_orca_constraints`: one half-plane constraint per neighbor, in
neighbor order. -/
def buildOrcaConstraints (currentPos currentVel : Vec3) (settings : FvoSettings)
    (neighbors : List Neighbor) (dt : ℝ) : List OrcaConstraint :=
  let invTau := 1 / max settings.horizon 0.001
  let invDt := 1 / max dt 0.001
  neighbors.map (buildConstraint currentPos currentVel settings invTau invDt)

/-- One iteration of the constraint loop inside `solve_orca`: skip satisfied
constraints, otherwise project onto the constraint line and re-clamp. -/
def solveStep (maxSpeed : ℝ) (r : Vec2) (c : OrcaConstraint) : Vec2 :=
  if Vec2.dot (Vec2.sub r c.point) c.normal ≤ 0 then r
  else
    let proj := Vec2.sub r (Vec2.smul (Vec2.dot (Vec2.sub r c.point) c.normal) c.normal)
    if maxSpeed < proj.length then Vec2.smul (maxSpeed / proj.length) proj else proj

/-- `solve_orca`: clamp the preferred velocity to `max_speed`, then visit the
constraints in order; the result is lifted back to the plane `y = 0`. -/
def solveOrca (preferredVel currentVel : Vec3) (constraints : List OrcaConstraint)
    (maxSpeed : ℝ) : Vec3 :=
  let r0 : Vec2 := ⟨preferredVel.x, preferredVel.z⟩
  let r1 := if maxSpeed < r0.length then Vec2.smul maxSpeed r0.normalizeOrZero else r0
  let r := constraints.foldl (solveStep maxSpeed) r1
  ⟨r.x, 0, r.y⟩

/-- The arrival speed scale of the preferred-velocity estimator: the goal
distance is floored at `f32::EPSILON`, the slow radius is
`max (2 * sensor_range) 0.1`, and inside the slow radius the ratio is clamped
to `[0, 1]`. -/
def speedScale (sensorRange distToGoal : ℝ) : ℝ :=
  let goalDist := max distToGoal f32Epsilon
  let slowRadius := max (sensorRange * 2) 0.1
  if goalDist < slowRadius then min (max (goalDist / slowRadius) 0) 1 else 1

/-- The preferred velocity: the sampled flow direction lifted to the plane,
normalized, and scaled by `preferred_speed * speed_scale`. -/
def preferredVelocity (dir2d : Vec2) (pos dest : Vec3) (settings : FvoSettings) : Vec3 :=
  let flowDir := Vec3.normalizeOrZero ⟨dir2d.x, 0, dir2d.y⟩
  Vec3.smul (settings.preferredSpeed * speedScale settings.sensorRange (Vec3.dist pos dest))
    flowDir

/-- The separation impulse contributed by one neighbor: a push along the
outward normal when the distance is below `1.05` times the combined radius and
above the `1e-3` guard, zero otherwise. -/
def sepContrib (pos : Vec3) (radius dt : ℝ) (n : Neighbor) : Vec3 :=
  let offset := Vec3.sub pos n.1
  let d := offset.length
  let combined := radius + n.2.2
  if d < combined * 1.05 ∧ 0.001 < d then
    Vec3.smul ((combined * 1.05 - d) * dt⁻¹) (Vec3.smul d⁻¹ offset)
  else Vec3.zero

/-- The separation corrector: the uncapped sum of the per-neighbor impulses. -/
def separationOf (pos : Vec3) (radius dt : ℝ) (neighbors : List Neighbor) : Vec3 :=
  neighbors.foldl (fun acc n => Vec3.add acc (sepContrib pos radius dt n)) Vec3.zero

/-- The integration step of `calculate_fvo_steering`: clamp the desired
velocity to `max_speed`, clamp the velocity difference to `max_accel`, advance
by `dt` and clamp to `max_speed + f32::EPSILON`. -/
def integrate (settings : FvoSettings) (dt : ℝ) (vel solved separation : Vec3) : Vec3 :=
  let desiredVel := Vec3.clampLengthMax (Vec3.add solved separation) settings.maxSpeed
  let desiredAccel := Vec3.clampLengthMax (Vec3.sub desiredVel vel) settings.maxAccel
  Vec3.clampLengthMax (Vec3.add vel (Vec3.smul dt desiredAccel))
    (settings.maxSpeed + f32Epsilon)

/-- The bucket coordinate of a world position: floor of the offset from the
grid origin divided by the bucket size, per axis (`x` and `z`). -/
def bucketCoord (origin : Vec2) (bsx bsy : ℝ) (pos : Vec3) : ℤ × ℤ :=
  (⌊(pos.x - origin.x) / bsx⌋, ⌊(pos.z - origin.y) / bsy⌋)

/-- The snapshot entries stored in the bucket with the given key, in snapshot
order; this models the per-tick `HashMap` bucket contents. -/
def bucketEntries (origin : Vec2) (bsx bsy : ℝ) (key : ℤ × ℤ) :
    List SnapEntry → List SnapEntry
  | [] => []
  | e :: rest =>
    if bucketCoord origin bsx bsy e.2.1 = key then
      e :: bucketEntries origin bsx bsy key rest
    else bucketEntries origin bsx bsy key rest

/-- The inner collection loop of the neighbor query: skip the querying agent
itself and keep entries whose squared distance is within
`(sensor_range + radius)²`. -/
def collectFrom (selfEnt : ℕ) (selfPos : Vec3) (sr : ℝ) :
    List SnapEntry → List Neighbor
  | [] => []
  | (e, pos, vel, radius) :: rest =>
    if e ≠ selfEnt ∧ Vec3.distSq selfPos pos ≤ (sr + radius) * (sr + radius) then
      (pos, vel, radius) :: collectFrom selfEnt selfPos sr rest
    else collectFrom selfEnt selfPos sr rest

/-- The inclusive integer range `lo..=hi` as a list, empty when `hi < lo`. -/
def intRange (lo hi : ℤ) : List ℤ :=
  (List.range (hi + 1 - lo).toNat).map (fun (i : ℕ) => lo + (i : ℤ))

/-- The square window of bucket keys visited by the neighbor query, outer axis
first. -/
def windowKeys (bx bz rx ry : ℤ) : List (ℤ × ℤ) :=
  (intRange (bx - rx) (bx + rx)).foldr
    (fun kx acc => (intRange (bz - ry) (bz + ry)).map (fun ky => (kx, ky)) ++ acc) []

/-- The neighbor query of `calculate_fvo_steering`: expand the bucket search
radius per axis by `ceil(sensor_range / bucket_size)` and collect in-range
agents from every bucket of the window. -/
def queryNeighbors (origin : Vec2) (bsx bsy : ℝ) (snap : List SnapEntry)
    (selfEnt : ℕ) (selfPos : Vec3) (sr : ℝ) : List Neighbor :=
  let b := bucketCoord origin bsx bsy selfPos
  let rx := ⌈sr / bsx⌉
  let ry := ⌈sr / bsy⌉
  (windowKeys b.1 b.2 rx ry).foldr
    (fun k acc => collectFrom selfEnt selfPos sr (bucketEntries origin bsx bsy k snap) ++ acc)
    []

/-- The mutable agent store of a tick: entity identifier to agent state, or
`none` for a missing agent. -/
abbrev AgentMap : Type := ℕ → Option AgentState

/-- The frame-start snapshot built from the agent store over the given entity
list, as `(entity, position, velocity, radius)` tuples. -/
def snapshotOf (σ : AgentMap) (ents : List ℕ) : List SnapEntry :=
  ents.filterMap (fun e => (σ e).map (fun st => (e, st.pos, st.vel, st.settings.radius)))

/-- The per-tick inputs shared by every agent solve: the direction sampler and
destination of the flow field, the bucket geometry, the frame-start snapshot
and the timestep. -/
structure TickEnv where
  sample : Vec3 → Vec2
  dest : Vec3
  origin : Vec2
  bsx : ℝ
  bsy : ℝ
  snap : List SnapEntry
  dt : ℝ

/-- The full per-agent solve given its neighbor list: preferred velocity,
constraints, ORCA solve, separation, then integration. -/
def stepAgent (env : TickEnv) (st : AgentState) (neighbors : List Neighbor) : Vec3 :=
  let preferredVel := preferredVelocity (env.sample st.pos) st.pos env.dest st.settings
  let constraints := buildOrcaConstraints st.pos st.vel st.settings neighbors env.dt
  let solved := solveOrca preferredVel st.vel constraints st.settings.maxSpeed
  let separation := separationOf st.pos st.settings.radius env.dt neighbors
  integrate st.settings env.dt st.vel solved separation

/-- The neighbor list used for an agent's solve, read from the frame-start
snapshot. -/
def neighborsFor (env : TickEnv) (u : ℕ) (st : AgentState) : List Neighbor :=
  queryNeighbors env.origin env.bsx env.bsy env.snap u st.pos st.settings.sensorRange

/-- The velocity solved for an agent in the current tick. -/
def stepFor (env : TickEnv) (u : ℕ) (st : AgentState) : Vec3 :=
  stepAgent env st (neighborsFor env u st)

/-- The unit loop of `calculate_fvo_steering` for one flow field: process the
unit list in order, skipping identifiers with no agent state, updating each
processed agent's velocity in place and buffering `(unit, velocity)` pairs. -/
def runUnits (env : TickEnv) : AgentMap → List ℕ → AgentMap × List (ℕ × Vec3)
  | σ, [] => (σ, [])
  | σ, u :: us =>
    match σ u with
    | none => runUnits env σ us
    | some st =>
      let v := stepFor env u st
      let σ2 : AgentMap := fun e => if e = u then some ⟨st.pos, v, st.settings⟩ else σ e
      let out := runUnits env σ2 us
      (out.1, (u, v) :: out.2)

/-- The steering output map: entity identifier to last written velocity. -/
abbrev SteerMap : Type := ℕ → Option Vec3

/-- One `steering_map.insert`. -/
def insertSteering (m : SteerMap) (p : ℕ × Vec3) : SteerMap :=
  fun e => if e = p.1 then some p.2 else m e

/-- The flush loop after the unit loop: insert every buffered pair into the
flow field's steering map, in order. -/
def flushSteering (m : SteerMap) (pending : List (ℕ × Vec3)) : SteerMap :=
  pending.foldl insertSteering m

/-- One tick of the steering pass for one flow field: run the unit loop, then
flush the buffered results into the steering map. -/
def runTick (env : TickEnv) (σ : AgentMap) (units : List ℕ) (m : SteerMap) :
    AgentMap × SteerMap :=
  let out := runUnits env σ units
  (out.1, flushSteering m out.2)

/-- The first buffered velocity recorded for a given entity, if any. -/
def firstVal : List (ℕ × Vec3) → ℕ → Option Vec3
  | [], _ => none
  | p :: rest, u => if p.1 = u then some p.2 else firstVal rest u

/-- The default agent settings of the end-to-end scenario: preferred speed 50,
max speed 60, max accel 100, horizon 3, radius 2.5, sensor range 8. -/
def settingsA : FvoSettings := ⟨50, 60, 100, 3, 5 / 2, 8⟩

/-- The scenario agent: at the world origin with zero velocity. -/
def stA : AgentState := ⟨Vec3.zero, Vec3.zero, settingsA⟩

/-- The tick inputs of the end-to-end scenario: constant flow direction
`(1,0)`, destination `(100,0,0)` (outside the slow radius), bucket size 10,
snapshot holding only the scenario agent, `dt = 0.1`. -/
def envA : TickEnv :=
  ⟨fun _ => ⟨1, 0⟩, ⟨100, 0, 0⟩, ⟨0, 0⟩, 10, 10,
    [(0, Vec3.zero, Vec3.zero, 5 / 2)], 1 / 10⟩

/-- The agent store of the end-to-end scenario: entity 0 only. -/
def sigmaA : AgentMap := fun e => if e = 0 then some stA else none

/-- Settings used by the acceleration-bound counterexample: zero preferred
speed and max accel, max speed 1. -/
def settingsB : FvoSettings := ⟨0, 1, 0, 1, 1, 0⟩

/-- An agent whose stored velocity, `(2,0,0)`, already exceeds its max
speed 1. -/
def stB : AgentState := ⟨Vec3.zero, ⟨2, 0, 0⟩, settingsB⟩

/-- A minimal tick environment: zero flow direction, unit buckets, empty
snapshot, `dt = 1`. -/
def envB : TickEnv := ⟨fun _ => ⟨0, 0⟩, Vec3.zero, ⟨0, 0⟩, 1, 1, [], 1⟩

/-- Snapshot for the bucket-size counterexample: the querying agent 0 at the
origin and a radius-10 neighbor at `(5,0,0)`. -/
def snapC : List SnapEntry :=
  [(0, Vec3.zero, Vec3.zero, 1), (1, ⟨5, 0, 0⟩, Vec3.zero, 10)]

/-- Snapshot for the bucket-invariance witness: one radius-0 neighbor at
`(3,0,0)`. -/
def snapD : List SnapEntry := [(1, ⟨3, 0, 0⟩, Vec3.zero, 0)]

/-- A steering map carrying one entry from an earlier tick, for entity 1. -/
def steerM0 : SteerMap := fun e => if e = 1 then some ⟨9, 9, 9⟩ else none

/-- Evaluation helper for square roots of perfect squares. -/
lemma sqrtEval {a b : ℝ} (h1 : 0 ≤ b) (h2 : b * b = a) : Real.sqrt a = b := by
  rw [← h2, Real.sqrt_mul_self h1]

lemma Vec3.lengthSq_nonneg (v : Vec3) : 0 ≤ v.lengthSq := by
  unfold Vec3.lengthSq; nlinarith [sq_nonneg v.x, sq_nonneg v.y, sq_nonneg v.z]

lemma Vec3.length_nonneg (v : Vec3) : 0 ≤ v.length := Real.sqrt_nonneg _

lemma Vec3.length_sq_eq (v : Vec3) : v.length * v.length = v.lengthSq :=
  Real.mul_self_sqrt v.lengthSq_nonneg

lemma Vec3.lengthSq_smul (s : ℝ) (v : Vec3) :
    (Vec3.smul s v).lengthSq = s * s * v.lengthSq := by
  unfold Vec3.smul Vec3.lengthSq; ring

lemma Vec3.length_smul (s : ℝ) (v : Vec3) :
    (Vec3.smul s v).length = |s| * v.length := by
  unfold Vec3.length
  rw [Vec3.lengthSq_smul, show s * s * v.lengthSq = |s| ^ 2 * v.lengthSq by
    rw [sq_abs]; ring]
  rw [Real.sqrt_mul (sq_nonneg _), Real.sqrt_sq_eq_abs, abs_abs]

lemma Vec3.length_le_of_lengthSq_le {v : Vec3} {m : ℝ} (hm : 0 ≤ m)
    (h : v.lengthSq ≤ m * m) : v.length ≤ m := by
  have := Real.sqrt_le_sqrt h
  rwa [Real.sqrt_mul_self hm] at this

/-- Cauchy-Schwarz for the 3D dot product. -/
lemma Vec3.dot_le_lengths (u v : Vec3) : Vec3.dot u v ≤ u.length * v.length := by
  have hsq : Vec3.dot u v * Vec3.dot u v ≤ u.lengthSq * v.lengthSq := by
    unfold Vec3.dot Vec3.lengthSq
    nlinarith [sq_nonneg (u.x * v.y - u.y * v.x), sq_nonneg (u.x * v.z - u.z * v.x),
      sq_nonneg (u.y * v.z - u.z * v.y)]
  have h1 : Vec3.dot u v ≤ |Vec3.dot u v| := le_abs_self _
  have h2 : |Vec3.dot u v| = Real.sqrt (Vec3.dot u v * Vec3.dot u v) := by
    rw [Real.sqrt_mul_self_eq_abs]
  have h3 : Real.sqrt (Vec3.dot u v * Vec3.dot u v) ≤ Real.sqrt (u.lengthSq * v.lengthSq) :=
    Real.sqrt_le_sqrt hsq
  have h4 : Real.sqrt (u.lengthSq * v.lengthSq) = u.length * v.length :=
    Real.sqrt_mul (Vec3.lengthSq_nonneg u) _
  linarith [h1, h2 ▸ h1, h3, h4 ▸ h3]

/-- The magnitude clamp never returns a vector longer than a nonnegative
bound. -/
lemma Vec3.clampLengthMax_le (v : Vec3) {m : ℝ} (hm : 0 ≤ m) :
    (Vec3.clampLengthMax v m).length ≤ m := by
  unfold Vec3.clampLengthMax
  by_cases h : m * m < v.lengthSq
  · rw [if_pos h]
    have hL : 0 < v.length := by
      have : 0 < v.lengthSq := lt_of_le_of_lt (by nlinarith) h
      have := Real.sqrt_pos.mpr this
      exact this
    rw [Vec3.length_smul]
    rw [abs_of_nonneg (div_nonneg hm hL.le), div_mul_cancel₀ _ hL.ne']
  · rw [if_neg h]
    exact Vec3.length_le_of_lengthSq_le hm (le_of_not_lt h)

lemma Vec3.lengthSq_sub (a b : Vec3) :
    (Vec3.sub a b).lengthSq = a.lengthSq - 2 * Vec3.dot a b + b.lengthSq := by
  unfold Vec3.sub Vec3.lengthSq Vec3.dot; ring

lemma Vec3.lengthSq_sub_smul (c : ℝ) (u v : Vec3) :
    (Vec3.sub (Vec3.smul c u) v).lengthSq
      = c * c * u.lengthSq - 2 * c * Vec3.dot u v + v.lengthSq := by
  unfold Vec3.sub Vec3.smul Vec3.lengthSq Vec3.dot; ring

/-- Projection onto the speed ball is a contraction: when the previous point
is inside the ball, clamping moves the new point closer to it, never
farther. -/
lemma Vec3.clampLengthMax_contract (u v : Vec3) {m : ℝ} (hv : v.length ≤ m) :
    (Vec3.sub (Vec3.clampLengthMax u m) v).length ≤ (Vec3.sub u v).length := by
  unfold Vec3.clampLengthMax
  by_cases h : m * m < u.lengthSq
  · rw [if_pos h]
    have hm : 0 ≤ m := le_trans (Vec3.length_nonneg v) hv
    have hLsq : u.length * u.length = u.lengthSq := Vec3.length_sq_eq u
    have hLm : m < u.length := by nlinarith [Vec3.length_nonneg u]
    have hL0 : 0 < u.length := lt_of_le_of_lt hm hLm
    have hd : Vec3.dot u v ≤ u.length * m := by
      have h1 := Vec3.dot_le_lengths u v
      nlinarith [Vec3.length_nonneg u]
    have key : (Vec3.sub (Vec3.smul (m / u.length) u) v).lengthSq
        ≤ (Vec3.sub u v).lengthSq := by
      rw [Vec3.lengthSq_sub_smul, Vec3.lengthSq_sub]
      have hc : m / u.length * u.length = m := div_mul_cancel₀ m hL0.ne'
      set L := u.length
      set d := Vec3.dot u v
      have h2 : 0 ≤ (L - m) * (L * m - d) :=
        mul_nonneg (by linarith) (by linarith)
      have h3 : 0 ≤ L * (L - m) ^ 2 := mul_nonneg hL0.le (sq_nonneg _)
      have h5 : (m / L * (m / L) * u.lengthSq - 2 * (m / L) * d) * L
          ≤ (u.lengthSq - 2 * d) * L := by
        have e1 : (m / L * (m / L) * u.lengthSq - 2 * (m / L) * d) * L
            = m * m * L - 2 * m * d := by
          rw [← hLsq]; field_simp
        have e2 : (u.lengthSq - 2 * d) * L = L * L * L - 2 * d * L := by
          rw [← hLsq]; ring
        rw [e1, e2]; nlinarith
      have h6 := le_of_mul_le_mul_right h5 hL0
      linarith
    exact Real.sqrt_le_sqrt key
  · rw [if_neg h]

/-- Subtracting the starting point from one Euler step leaves the scaled
acceleration. -/
lemma Vec3.sub_add_cancel_left (v w : Vec3) : Vec3.sub (Vec3.add v w) v = w := by
  unfold Vec3.sub Vec3.add; ext <;> simp

lemma f32Epsilon_pos : 0 < f32Epsilon := by unfold f32Epsilon; norm_num

lemma integrate_eq (settings : FvoSettings) (dt : ℝ) (vel solved separation : Vec3) :
    integrate settings dt vel solved separation
      = Vec3.clampLengthMax
          (Vec3.add vel (Vec3.smul dt (Vec3.clampLengthMax
            (Vec3.sub (Vec3.clampLengthMax (Vec3.add solved separation) settings.maxSpeed) vel)
            settings.maxAccel)))
          (settings.maxSpeed + f32Epsilon) := rfl

/-- The integration step never publishes a velocity faster than
`max_speed + f32::EPSILON`. -/
lemma integrate_length_le (settings : FvoSettings) (dt : ℝ) (vel solved separation : Vec3)
    (hms : 0 ≤ settings.maxSpeed) :
    (integrate settings dt vel solved separation).length
      ≤ settings.maxSpeed + f32Epsilon := by
  rw [integrate_eq]
  exact Vec3.clampLengthMax_le _ (by linarith [f32Epsilon_pos])

/-- When the incoming velocity already respects the published speed bound, the
integration step changes the velocity by at most `max_accel * dt`. -/
lemma integrate_accel_le (settings : FvoSettings) (dt : ℝ) (vel solved separation : Vec3)
    (hdt : 0 < dt) (hma : 0 ≤ settings.maxAccel)
    (hv : vel.length ≤ settings.maxSpeed + f32Epsilon) :
    (Vec3.sub (integrate settings dt vel solved separation) vel).length / dt
      ≤ settings.maxAccel + f32Epsilon := by
  rw [integrate_eq]
  set a := Vec3.clampLengthMax
    (Vec3.sub (Vec3.clampLengthMax (Vec3.add solved separation) settings.maxSpeed) vel)
    settings.maxAccel with ha
  have hA : a.length ≤ settings.maxAccel := Vec3.clampLengthMax_le _ hma
  have hcon := Vec3.clampLengthMax_contract (Vec3.add vel (Vec3.smul dt a)) vel hv
  rw [Vec3.sub_add_cancel_left, Vec3.length_smul, abs_of_pos hdt] at hcon
  rw [div_le_iff hdt]
  have h1 : dt * a.length ≤ (settings.maxAccel + f32Epsilon) * dt := by
    nlinarith [f32Epsilon_pos, Vec3.length_nonneg a]
  linarith

lemma stepAgent_eq (env : TickEnv) (st : AgentState) (neighbors : List Neighbor) :
    stepAgent env st neighbors
      = integrate st.settings env.dt st.vel
          (solveOrca (preferredVelocity (env.sample st.pos) st.pos env.dest st.settings)
            st.vel (buildOrcaConstraints st.pos st.vel st.settings neighbors env.dt)
            st.settings.maxSpeed)
          (separationOf st.pos st.settings.radius env.dt neighbors) := rfl

lemma stepAgent_length_le (env : TickEnv) (st : AgentState) (neighbors : List Neighbor)
    (hms : 0 ≤ st.settings.maxSpeed) :
    (stepAgent env st neighbors).length ≤ st.settings.maxSpeed + f32Epsilon := by
  rw [stepAgent_eq]; exact integrate_length_le _ _ _ _ _ hms

lemma runUnits_nil (env : TickEnv) (σ : AgentMap) : runUnits env σ [] = (σ, []) := rfl

lemma runUnits_cons_none (env : TickEnv) (σ : AgentMap) (u : ℕ) (us : List ℕ)
    (h : σ u = none) : runUnits env σ (u :: us) = runUnits env σ us := by
  simp only [runUnits, h]

lemma runUnits_cons_some (env : TickEnv) (σ : AgentMap) (u : ℕ) (us : List ℕ)
    (st : AgentState) (h : σ u = some st) :
    runUnits env σ (u :: us)
      = ((runUnits env
            (fun e => if e = u then some ⟨st.pos, stepFor env u st, st.settings⟩ else σ e)
            us).1,
         (u, stepFor env u st)
           :: (runUnits env
                 (fun e => if e = u then some ⟨st.pos, stepFor env u st, st.settings⟩ else σ e)
                 us).2) := by
  simp only [runUnits, h]

/-- C2: every velocity buffered by the unit loop of one tick has magnitude at
most that agent's `max_speed + f32::EPSILON`, for arbitrary neighbors,
constraints and separation sums, provided every stored `max_speed` is
nonnegative. -/
theorem c2_velocity_bounded (env : TickEnv) (σ : AgentMap) (units : List ℕ)
    (hms : ∀ e st, σ e = some st → 0 ≤ st.settings.maxSpeed) :
    ∀ u v, (u, v) ∈ (runUnits env σ units).2 →
      ∃ st, σ u = some st ∧ v.length ≤ st.settings.maxSpeed + f32Epsilon := by
  induction units generalizing σ with
  | nil =>
    intro u v hmem
    rw [runUnits_nil] at hmem
    simp at hmem
  | cons u0 us ih =>
    intro u v hmem
    cases h0 : σ u0 with
    | none =>
      rw [runUnits_cons_none env σ u0 us h0] at hmem
      exact ih σ hms u v hmem
    | some st0 =>
      rw [runUnits_cons_some env σ u0 us st0 h0] at hmem
      rcases List.mem_cons.mp hmem with hhead | htail
      · injection hhead with hu hv
        subst hu
        subst hv
        exact ⟨st0, h0,
          stepAgent_length_le env st0 (neighborsFor env u st0) (hms u st0 h0)⟩
      · have hms2 : ∀ e st,
            (fun e => if e = u0
              then some (⟨st0.pos, stepFor env u0 st0, st0.settings⟩ : AgentState)
              else σ e) e = some st → 0 ≤ st.settings.maxSpeed := by
          intro e st h
          by_cases he : e = u0
          · subst he
            simp only [if_pos rfl] at h
            injection h with h2
            rw [← h2]
            exact hms e st0 h0
          · simp only [if_neg he] at h
            exact hms e st h
        obtain ⟨st1, hst1, hb⟩ := ih _ hms2 u v htail
        by_cases hu : u = u0
        · subst hu
          simp only [if_pos rfl] at hst1
          injection hst1 with h2
          refine ⟨st0, h0, ?_⟩
          rw [← h2] at hb
          exact hb
        · simp only [if_neg hu] at hst1
          exact ⟨st1, hst1, hb⟩

/-- Witness for C2 at the concrete end-to-end scenario. -/
theorem c2_velocity_bounded_witness :
    ∃ st, sigmaA 0 = some st
      ∧ (stepFor envA 0 stA).length ≤ st.settings.maxSpeed + f32Epsilon := by
  refine c2_velocity_bounded envA sigmaA [0] ?_ 0 (stepFor envA 0 stA) ?_
  · intro e st h
    unfold sigmaA at h
    by_cases he : e = 0
    · subst he
      simp only [if_pos rfl] at h
      injection h with h2
      rw [← h2]
      norm_num [stA, settingsA]
    · simp only [if_neg he] at h
      cases h
  · rw [runUnits_cons_some envA sigmaA 0 [] stA rfl]
    simp

lemma sqrt_four : Real.sqrt 4 = 2 := sqrtEval (by norm_num) (by norm_num)

lemma clampEval_le (v : Vec3) (m : ℝ) (h : ¬ m * m < v.lengthSq) :
    Vec3.clampLengthMax v m = v := if_neg h

lemma clampEval_gt (v : Vec3) (m L : ℝ) (h : m * m < v.lengthSq) (hL : v.length = L) :
    Vec3.clampLengthMax v m = Vec3.smul (m / L) v := by
  unfold Vec3.clampLengthMax
  rw [if_pos h, hL]

lemma c3_solved_eval :
    solveOrca Vec3.zero stB.vel
      (buildOrcaConstraints stB.pos stB.vel stB.settings [] envB.dt)
      stB.settings.maxSpeed = Vec3.zero := by
  unfold solveOrca buildOrcaConstraints
  simp [Vec3.zero, Vec2.length, Vec2.lengthSq, stB, settingsB]
  norm_num

lemma c3_int_eval :
    integrate settingsB 1 (⟨2, 0, 0⟩ : Vec3) Vec3.zero Vec3.zero
      = ⟨1 + f32Epsilon, 0, 0⟩ := by
  rw [integrate_eq]
  rw [show Vec3.add Vec3.zero Vec3.zero = Vec3.zero by simp [Vec3.add, Vec3.zero]]
  rw [clampEval_le Vec3.zero settingsB.maxSpeed
    (by norm_num [Vec3.lengthSq, Vec3.zero, settingsB])]
  rw [show Vec3.sub Vec3.zero (⟨2, 0, 0⟩ : Vec3) = (⟨-2, 0, 0⟩ : Vec3) by
    simp [Vec3.sub, Vec3.zero]]
  have hlen2 : (⟨-2, 0, 0⟩ : Vec3).length = 2 := by
    unfold Vec3.length
    rw [show (⟨-2, 0, 0⟩ : Vec3).lengthSq = 4 by norm_num [Vec3.lengthSq]]
    exact sqrt_four
  rw [clampEval_gt (⟨-2, 0, 0⟩ : Vec3) settingsB.maxAccel 2
    (by norm_num [Vec3.lengthSq, settingsB]) hlen2]
  rw [show Vec3.smul (settingsB.maxAccel / 2) (⟨-2, 0, 0⟩ : Vec3) = Vec3.zero by
    norm_num [Vec3.smul, Vec3.zero, settingsB]]
  rw [show Vec3.add (⟨2, 0, 0⟩ : Vec3) (Vec3.smul 1 Vec3.zero) = (⟨2, 0, 0⟩ : Vec3) by
    norm_num [Vec3.add, Vec3.smul, Vec3.zero]]
  have hlen3 : (⟨2, 0, 0⟩ : Vec3).length = 2 := by
    unfold Vec3.length
    rw [show (⟨2, 0, 0⟩ : Vec3).lengthSq = 4 by norm_num [Vec3.lengthSq]]
    exact sqrt_four
  rw [clampEval_gt (⟨2, 0, 0⟩ : Vec3) (settingsB.maxSpeed + f32Epsilon) 2
    (by norm_num [Vec3.lengthSq, settingsB, f32Epsilon]) hlen3]
  norm_num [Vec3.smul, settingsB, f32Epsilon]

lemma c3_eval : stepAgent envB stB [] = ⟨1 + f32Epsilon, 0, 0⟩ := by
  rw [stepAgent_eq]
  have h1 : preferredVelocity (envB.sample stB.pos) stB.pos envB.dest stB.settings
      = Vec3.zero := by
    unfold preferredVelocity Vec3.normalizeOrZero
    simp [Vec3.length, Vec3.lengthSq, Vec3.zero, Vec3.smul, envB, stB, settingsB]
  rw [h1, c3_solved_eval]
  rw [show separationOf stB.pos stB.settings.radius envB.dt [] = Vec3.zero from rfl]
  rw [show stB.settings = settingsB from rfl, show envB.dt = (1 : ℝ) from rfl,
    show stB.vel = (⟨2, 0, 0⟩ : Vec3) from rfl]
  exact c3_int_eval

/-- C3 is false as stated: an agent whose stored velocity already exceeds its
max speed can be slowed by the final speed clamp much faster than
`max_accel + f32::EPSILON` allows; with velocity `(2,0,0)`, `max_speed = 1`,
`max_accel = 0` and `dt = 1` the per-tick velocity change per unit time is
`1 - f32::EPSILON`, far above `0 + f32::EPSILON`. -/
theorem c3_counterexample :
    ¬ ((Vec3.sub (stepAgent envB stB []) stB.vel).length / envB.dt
        ≤ stB.settings.maxAccel + f32Epsilon) := by
  rw [c3_eval]
  rw [show Vec3.sub (⟨1 + f32Epsilon, 0, 0⟩ : Vec3) stB.vel
      = (⟨f32Epsilon - 1, 0, 0⟩ : Vec3) by
    simp [Vec3.sub, stB]; ring]
  have hlen : (⟨f32Epsilon - 1, 0, 0⟩ : Vec3).length = 1 - f32Epsilon := by
    unfold Vec3.length
    rw [show (⟨f32Epsilon - 1, 0, 0⟩ : Vec3).lengthSq
        = (1 - f32Epsilon) * (1 - f32Epsilon) by simp [Vec3.lengthSq]; ring]
    exact Real.sqrt_mul_self (by norm_num [f32Epsilon])
  rw [hlen]
  norm_num [f32Epsilon, envB, stB, settingsB]

/-- C3 (amended): when the previous velocity already respects the published
bound `max_speed + f32::EPSILON` (the invariant the integration step itself
maintains), the per-tick velocity change per unit time is at most
`max_accel + f32::EPSILON`, for every timestep `dt > 0` and nonnegative
`max_accel`. -/
theorem c3_amended_accel_bound (env : TickEnv) (st : AgentState)
    (neighbors : List Neighbor) (hdt : 0 < env.dt) (hma : 0 ≤ st.settings.maxAccel)
    (hv : st.vel.length ≤ st.settings.maxSpeed + f32Epsilon) :
    (Vec3.sub (stepAgent env st neighbors) st.vel).length / env.dt
      ≤ st.settings.maxAccel + f32Epsilon := by
  rw [stepAgent_eq]
  exact integrate_accel_le _ _ _ _ _ hdt hma hv

/-- Witness for the amended C3 at the concrete end-to-end scenario. -/
theorem c3_amended_accel_bound_witness :
    (Vec3.sub (stepAgent envA stA []) stA.vel).length / envA.dt
      ≤ stA.settings.maxAccel + f32Epsilon := by
  refine c3_amended_accel_bound envA stA [] ?_ ?_ ?_
  · norm_num [envA]
  · norm_num [stA, settingsA]
  · rw [show stA.vel = Vec3.zero from rfl]
    rw [show Vec3.zero.length = 0 by
      unfold Vec3.length; norm_num [Vec3.lengthSq, Vec3.zero]]
    norm_num [stA, settingsA, f32Epsilon]

/-- C5: the velocity recorded for an agent depends only on that agent's own
frame-start state and the frame-start snapshot; the identifiers processed
before it (and after it) in the same tick never change it, because every
neighbor read uses the snapshot buckets rather than in-tick updates. -/
theorem c5_snapshot_order_independence (env : TickEnv) (u : ℕ) (st : AgentState)
    (us1 us2 : List ℕ) (σ : AgentMap) (hnot : u ∉ us1) (hu : σ u = some st) :
    firstVal (runUnits env σ (us1 ++ u :: us2)).2 u = some (stepFor env u st) := by
  induction us1 generalizing σ with
  | nil =>
    rw [List.nil_append, runUnits_cons_some env σ u us2 st hu]
    simp [firstVal]
  | cons w ws ih =>
    have hwu : w ≠ u := by
      intro hc
      exact hnot (by rw [hc]; exact List.mem_cons_self u ws)
    have hnot2 : u ∉ ws := fun hc => hnot (List.mem_cons_of_mem _ hc)
    cases hw : σ w with
    | none =>
      rw [List.cons_append, runUnits_cons_none env σ w _ hw]
      exact ih σ hnot2 hu
    | some stw =>
      rw [List.cons_append, runUnits_cons_some env σ w _ stw hw]
      simp only [firstVal]
      rw [if_neg (show ¬((w, stepFor env w stw).1 = u) from hwu)]
      refine ih _ hnot2 ?_
      simp only [if_neg (Ne.symm hwu)]
      exact hu

/-- Witness for C5: with another identifier processed first, agent 0 still
receives the value solved from its frame-start state. -/
theorem c5_snapshot_order_independence_witness :
    firstVal (runUnits envA sigmaA [7, 0]).2 0 = some (stepFor envA 0 stA) :=
  c5_snapshot_order_independence envA 0 stA [7] [] sigmaA (by decide) rfl

lemma runUnits_skip_missing (env : TickEnv) (u : ℕ) (us2 : List ℕ) :
    ∀ (us1 : List ℕ) (σ : AgentMap), σ u = none →
      runUnits env σ (us1 ++ u :: us2) = runUnits env σ (us1 ++ us2) := by
  intro us1
  induction us1 with
  | nil =>
    intro σ h
    simpa using runUnits_cons_none env σ u us2 h
  | cons w ws ih =>
    intro σ h
    cases hw : σ w with
    | none =>
      rw [List.cons_append, List.cons_append, runUnits_cons_none env σ w _ hw,
        runUnits_cons_none env σ w _ hw]
      exact ih σ h
    | some stw =>
      rw [List.cons_append, List.cons_append, runUnits_cons_some env σ w _ stw hw,
        runUnits_cons_some env σ w _ stw hw]
      have h2 : (fun e => if e = w
          then some (⟨stw.pos, stepFor env w stw, stw.settings⟩ : AgentState)
          else σ e) u = none := by
        by_cases huw : u = w
        · subst huw
          rw [h] at hw
          cases hw
        · simp only [if_neg huw]
          exact h
      rw [ih _ h2]

lemma runUnits_missing_not_buffered (env : TickEnv) (u : ℕ) :
    ∀ (us : List ℕ) (σ : AgentMap), σ u = none →
      ∀ v, (u, v) ∉ (runUnits env σ us).2 := by
  intro us
  induction us with
  | nil =>
    intro σ h v
    rw [runUnits_nil]
    simp
  | cons w ws ih =>
    intro σ h v
    cases hw : σ w with
    | none =>
      rw [runUnits_cons_none env σ w _ hw]
      exact ih σ h v
    | some stw =>
      rw [runUnits_cons_some env σ w _ stw hw]
      intro hmem
      rcases List.mem_cons.mp hmem with hhead | htail
      · injection hhead with h1 h2
        subst h1
        rw [h] at hw
        cases hw
      · have h2 : (fun e => if e = w
            then some (⟨stw.pos, stepFor env w stw, stw.settings⟩ : AgentState)
            else σ e) u = none := by
          by_cases huw : u = w
          · subst huw
            rw [h] at hw
            cases hw
          · simp only [if_neg huw]
            exact h
        exact ih _ h2 v htail

/-- C8: an identifier in the unit list with no agent state is skipped
silently: the tick is identical to the tick without that identifier, and no
entry for it is ever buffered for the steering map. -/
theorem c8_missing_agent_skipped (env : TickEnv) (σ : AgentMap) (us1 us2 : List ℕ)
    (u : ℕ) (h : σ u = none) :
    runUnits env σ (us1 ++ u :: us2) = runUnits env σ (us1 ++ us2)
      ∧ ∀ v, (u, v) ∉ (runUnits env σ (us1 ++ u :: us2)).2 :=
  ⟨runUnits_skip_missing env u us2 us1 σ h,
   runUnits_missing_not_buffered env u (us1 ++ u :: us2) σ h⟩

/-- Witness for C8: identifier 7 has no state in the scenario store and is
skipped. -/
theorem c8_missing_agent_skipped_witness :
    runUnits envA sigmaA [0, 7] = runUnits envA sigmaA [0]
      ∧ (7, Vec3.zero) ∉ (runUnits envA sigmaA [0, 7]).2 :=
  ⟨(c8_missing_agent_skipped envA sigmaA [0] [] 7 rfl).1,
   (c8_missing_agent_skipped envA sigmaA [0] [] 7 rfl).2 Vec3.zero⟩

lemma flush_not_buffered (pending : List (ℕ × Vec3)) :
    ∀ (m : SteerMap) (u : ℕ), u ∉ pending.map Prod.fst →
      flushSteering m pending u = m u := by
  induction pending with
  | nil =>
    intro m u _
    rfl
  | cons p rest ih =>
    intro m u h
    have h1 : u ≠ p.1 := by
      intro hc
      exact h (by rw [List.map_cons, hc]; exact List.mem_cons_self _ _)
    have h2 : u ∉ rest.map Prod.fst := by
      intro hc
      exact h (by rw [List.map_cons]; exact List.mem_cons_of_mem _ hc)
    unfold flushSteering at ih ⊢
    rw [List.foldl_cons, ih (insertSteering m p) u h2]
    unfold insertSteering
    rw [if_neg h1]

lemma flush_buffered (pending : List (ℕ × Vec3)) :
    ∀ (m : SteerMap) (u : ℕ), u ∈ pending.map Prod.fst →
      ∃ v, flushSteering m pending u = some v ∧ (u, v) ∈ pending := by
  induction pending with
  | nil =>
    intro m u h
    simp at h
  | cons p rest ih =>
    intro m u h
    by_cases h2 : u ∈ rest.map Prod.fst
    · obtain ⟨v, hv, hmem⟩ := ih (insertSteering m p) u h2
      refine ⟨v, ?_, List.mem_cons_of_mem _ hmem⟩
      unfold flushSteering at hv ⊢
      rw [List.foldl_cons]
      exact hv
    · have h1 : u = p.1 := by
        rw [List.map_cons] at h
        rcases List.mem_cons.mp h with hh | hh
        · exact hh
        · exact absurd hh h2
      refine ⟨p.2, ?_, ?_⟩
      · unfold flushSteering
        rw [List.foldl_cons]
        have := flush_not_buffered rest (insertSteering m p) u h2
        unfold flushSteering at this
        rw [this]
        unfold insertSteering
        rw [if_pos h1]
      · rw [h1]
        exact List.mem_cons_self p rest

/-- C7 is false as stated: the steering map is never cleared, so an entry
written in an earlier tick for an agent no longer in the unit list survives
the next tick's run. -/
theorem c7_counterexample :
    (runTick envB (fun _ => none) [] steerM0).2 1 = some ⟨9, 9, 9⟩ := rfl

/-- C7 (amended): within a tick the flush inserts exactly the buffered pairs:
an identifier not solved this tick keeps its previous map entry (stale entries
survive), and every identifier solved this tick maps to one of its buffered
velocities. -/
theorem c7_amended_map_semantics (env : TickEnv) (σ : AgentMap) (units : List ℕ)
    (m : SteerMap) :
    (∀ u, u ∉ (runUnits env σ units).2.map Prod.fst →
        (runTick env σ units m).2 u = m u)
      ∧ ∀ u, u ∈ (runUnits env σ units).2.map Prod.fst →
          ∃ v, (runTick env σ units m).2 u = some v ∧ (u, v) ∈ (runUnits env σ units).2 := by
  constructor
  · intro u h
    exact flush_not_buffered _ _ _ h
  · intro u h
    exact flush_buffered _ _ _ h

/-- Witness for the amended C7: an identifier not solved in an empty tick
keeps its stale entry. -/
theorem c7_amended_map_semantics_witness :
    (runTick envB (fun _ => none) [] steerM0).2 1 = steerM0 1 :=
  (c7_amended_map_semantics envB (fun _ => none) [] steerM0).1 1 (by simp [runUnits_nil])

/-- C10: a neighbor within the `1e-3` distance guard (in particular an
exactly co-located one) contributes exactly zero to the separation sum: the
guard keeps the near-zero normalization branch from running, so maximally
overlapping agents get no separation push from each other. -/
theorem c10_colocated_zero_separation (pos : Vec3) (radius dt : ℝ)
    (npos nvel : Vec3) (nradius : ℝ) (rest : List Neighbor)
    (h : Vec3.dist pos npos ≤ 0.001) :
    sepContrib pos radius dt (npos, nvel, nradius) = Vec3.zero
      ∧ separationOf pos radius dt ((npos, nvel, nradius) :: rest)
          = separationOf pos radius dt rest := by
  have hc : sepContrib pos radius dt (npos, nvel, nradius) = Vec3.zero := by
    simp only [sepContrib]
    exact if_neg (fun hand => absurd hand.2 (not_lt.mpr h))
  refine ⟨hc, ?_⟩
  unfold separationOf
  rw [List.foldl_cons, hc,
    show Vec3.add Vec3.zero Vec3.zero = Vec3.zero by simp [Vec3.add, Vec3.zero]]

/-- Witness for C10 with two agents at the same position. -/
theorem c10_colocated_zero_separation_witness :
    sepContrib Vec3.zero 1 1 (Vec3.zero, Vec3.zero, 1) = Vec3.zero
      ∧ separationOf Vec3.zero 1 1 [(Vec3.zero, Vec3.zero, 1)]
          = separationOf Vec3.zero 1 1 [] := by
  refine c10_colocated_zero_separation Vec3.zero 1 1 Vec3.zero Vec3.zero 1 [] ?_
  rw [show Vec3.dist Vec3.zero Vec3.zero = 0 by
    unfold Vec3.dist Vec3.distSq
    norm_num [Vec3.sub, Vec3.zero, Vec3.lengthSq]]
  norm_num

lemma preferredVelocity_y (dir2d : Vec2) (pos dest : Vec3) (settings : FvoSettings) :
    (preferredVelocity dir2d pos dest settings).y = 0 := by
  unfold preferredVelocity Vec3.normalizeOrZero
  by_cases h : 0 < (⟨dir2d.x, 0, dir2d.y⟩ : Vec3).length
  · rw [if_pos h]
    simp [Vec3.smul]
  · rw [if_neg h]
    simp [Vec3.smul, Vec3.zero]

lemma solveOrca_nil (pv cv : Vec3) (ms : ℝ) (hy : pv.y = 0) (hms : 0 ≤ ms) :
    solveOrca pv cv [] ms = Vec3.clampLengthMax pv ms := by
  have hsq : Vec2.lengthSq ⟨pv.x, pv.z⟩ = pv.lengthSq := by
    unfold Vec2.lengthSq Vec3.lengthSq
    rw [hy]
    ring
  have hlen : Vec2.length ⟨pv.x, pv.z⟩ = pv.length := by
    unfold Vec2.length Vec3.length
    rw [hsq]
  have hlsq := Vec3.length_sq_eq pv
  unfold solveOrca
  simp only [List.foldl_nil]
  by_cases hc : ms < Vec2.length ⟨pv.x, pv.z⟩
  · rw [if_pos hc]
    rw [hlen] at hc
    have hl_pos : 0 < pv.length := lt_of_le_of_lt hms hc
    have hyes : ms * ms < pv.lengthSq := by nlinarith
    unfold Vec3.clampLengthMax
    rw [if_pos hyes]
    unfold Vec2.normalizeOrZero
    rw [if_pos (by rw [hlen]; exact hl_pos)]
    ext
    · show ms * ((Vec2.length ⟨pv.x, pv.z⟩)⁻¹ * pv.x) = ms / pv.length * pv.x
      rw [hlen]
      field_simp
    · show (0 : ℝ) = ms / pv.length * pv.y
      rw [hy]
      ring
    · show ms * ((Vec2.length ⟨pv.x, pv.z⟩)⁻¹ * pv.z) = ms / pv.length * pv.z
      rw [hlen]
      field_simp
  · rw [if_neg hc]
    rw [hlen] at hc
    have hno : ¬ (ms * ms < pv.lengthSq) := by
      have h1 : pv.length ≤ ms := le_of_not_lt hc
      nlinarith [Vec3.length_nonneg pv]
    unfold Vec3.clampLengthMax
    rw [if_neg hno]
    ext
    · rfl
    · exact hy.symm
    · rfl

/-- C9: with an empty neighbor set the constraint list is empty, and the
solver returns exactly the preferred velocity clamped in magnitude to
`max_speed`, with no constraint projection applied. -/
theorem c9_empty_neighbors_clamp (dir2d : Vec2) (pos dest currentPos currentVel : Vec3)
    (settings : FvoSettings) (dt : ℝ) (hms : 0 ≤ settings.maxSpeed) :
    solveOrca (preferredVelocity dir2d pos dest settings) currentVel
      (buildOrcaConstraints currentPos currentVel settings [] dt) settings.maxSpeed
      = Vec3.clampLengthMax (preferredVelocity dir2d pos dest settings)
          settings.maxSpeed := by
  rw [show buildOrcaConstraints currentPos currentVel settings [] dt = [] from rfl]
  exact solveOrca_nil _ _ _ (preferredVelocity_y dir2d pos dest settings) hms

/-- Witness for C9 at the end-to-end scenario inputs. -/
theorem c9_empty_neighbors_clamp_witness :
    solveOrca (preferredVelocity ⟨1, 0⟩ Vec3.zero ⟨100, 0, 0⟩ settingsA) Vec3.zero
      (buildOrcaConstraints Vec3.zero Vec3.zero settingsA [] (1 / 10)) settingsA.maxSpeed
      = Vec3.clampLengthMax (preferredVelocity ⟨1, 0⟩ Vec3.zero ⟨100, 0, 0⟩ settingsA)
          settingsA.maxSpeed :=
  c9_empty_neighbors_clamp ⟨1, 0⟩ Vec3.zero ⟨100, 0, 0⟩ Vec3.zero Vec3.zero settingsA
    (1 / 10) (by norm_num [settingsA])

lemma speedScale_zero_dist (s : ℝ) :
    speedScale s 0 = f32Epsilon / max (s * 2) 0.1 := by
  unfold speedScale
  rw [max_eq_right (le_of_lt f32Epsilon_pos)]
  have hsr : (0.1 : ℝ) ≤ max (s * 2) 0.1 := le_max_right _ _
  have hlt : f32Epsilon < max (s * 2) 0.1 :=
    lt_of_lt_of_le (by norm_num [f32Epsilon]) hsr
  rw [if_pos hlt]
  have h1 : 0 ≤ f32Epsilon / max (s * 2) 0.1 :=
    div_nonneg f32Epsilon_pos.le (by linarith)
  have h2 : f32Epsilon / max (s * 2) 0.1 ≤ 1 := by
    rw [div_le_one (by linarith)]
    linarith
  rw [max_eq_left h1, min_eq_left h2]

/-- C6 (amended): at distance exactly 0 the arrival speed scale is not 0 but
`f32::EPSILON / slow_radius` (the code floors the goal distance at
`f32::EPSILON` before dividing), a strictly positive value; hence the
preferred velocity magnitude is a strictly positive multiple of
`preferred_speed` whenever the flow direction is nonzero, not exactly 0. -/
theorem c6_amended_speed_scale :
    ∀ s : ℝ, speedScale s 0 = f32Epsilon / max (s * 2) 0.1 ∧ 0 < speedScale s 0 := by
  intro s
  refine ⟨speedScale_zero_dist s, ?_⟩
  rw [speedScale_zero_dist s]
  have hsr : (0.1 : ℝ) ≤ max (s * 2) 0.1 := le_max_right _ _
  exact div_pos f32Epsilon_pos (by linarith)

lemma unitX_length : (⟨1, 0, 0⟩ : Vec3).length = 1 := by
  unfold Vec3.length
  rw [show (⟨1, 0, 0⟩ : Vec3).lengthSq = 1 by norm_num [Vec3.lengthSq]]
  exact Real.sqrt_one

lemma normalizeOrZero_unitX : Vec3.normalizeOrZero ⟨1, 0, 0⟩ = ⟨1, 0, 0⟩ := by
  unfold Vec3.normalizeOrZero
  rw [unitX_length]
  norm_num [Vec3.smul]

lemma dist_zero_zero : Vec3.dist Vec3.zero Vec3.zero = 0 := by
  unfold Vec3.dist Vec3.distSq
  norm_num [Vec3.sub, Vec3.zero, Vec3.lengthSq]

/-- C6 is false as stated: with sensor range 8 the speed scale at distance 0
is `f32::EPSILON / 16`, not exactly 0, and with flow direction `(1,0)` the
preferred velocity of an agent standing on its destination has strictly
positive magnitude. -/
theorem c6_counterexample :
    speedScale 8 0 = f32Epsilon / 16 ∧ speedScale 8 0 ≠ 0
      ∧ 0 < (preferredVelocity ⟨1, 0⟩ Vec3.zero Vec3.zero settingsA).length := by
  have h16 : max ((8 : ℝ) * 2) 0.1 = 16 := by norm_num
  have h1 : speedScale 8 0 = f32Epsilon / 16 := by
    rw [speedScale_zero_dist 8, h16]
  refine ⟨h1, ?_, ?_⟩
  · rw [h1]
    norm_num [f32Epsilon]
  · have hpv : preferredVelocity ⟨1, 0⟩ Vec3.zero Vec3.zero settingsA
        = Vec3.smul (50 * (f32Epsilon / 16)) ⟨1, 0, 0⟩ := by
      unfold preferredVelocity
      rw [show ((⟨1, 0⟩ : Vec2).x : ℝ) = 1 from rfl,
        show ((⟨1, 0⟩ : Vec2).y : ℝ) = 0 from rfl, normalizeOrZero_unitX, dist_zero_zero]
      rw [show settingsA.sensorRange = 8 from rfl,
        show settingsA.preferredSpeed = 50 from rfl, h1]
    rw [hpv, Vec3.length_smul, unitX_length]
    rw [abs_of_pos (by norm_num [f32Epsilon])]
    norm_num [f32Epsilon]

lemma mem_intRange {lo hi z : ℤ} : z ∈ intRange lo hi ↔ lo ≤ z ∧ z ≤ hi := by
  unfold intRange
  rw [List.mem_map]
  constructor
  · rintro ⟨i, hi2, rfl⟩
    rw [List.mem_range] at hi2
    omega
  · rintro ⟨h1, h2⟩
    refine ⟨(z - lo).toNat, ?_, by omega⟩
    rw [List.mem_range]
    omega

lemma mem_foldr_append {α β : Type} (f : α → List β) (l : List α) (x : β) :
    (x ∈ l.foldr (fun a acc => f a ++ acc) []) ↔ ∃ a, a ∈ l ∧ x ∈ f a := by
  induction l with
  | nil => simp
  | cons a rest ih =>
    simp only [List.foldr_cons, List.mem_append, ih, List.mem_cons]
    constructor
    · rintro (hx | ⟨b, hb, hx⟩)
      · exact ⟨a, Or.inl rfl, hx⟩
      · exact ⟨b, Or.inr hb, hx⟩
    · rintro ⟨b, hb | hb, hx⟩
      · exact Or.inl (hb ▸ hx)
      · exact Or.inr ⟨b, hb, hx⟩

lemma mem_windowKeys {bx bz rx ry kx ky : ℤ} :
    (kx, ky) ∈ windowKeys bx bz rx ry
      ↔ (bx - rx ≤ kx ∧ kx ≤ bx + rx) ∧ (bz - ry ≤ ky ∧ ky ≤ bz + ry) := by
  unfold windowKeys
  rw [mem_foldr_append]
  constructor
  · rintro ⟨a, ha, hx⟩
    rw [List.mem_map] at hx
    obtain ⟨b, hb, heq⟩ := hx
    injection heq with h1 h2
    subst h1
    subst h2
    exact ⟨mem_intRange.mp ha, mem_intRange.mp hb⟩
  · rintro ⟨hx, hy2⟩
    exact ⟨kx, mem_intRange.mpr hx, List.mem_map.mpr ⟨ky, mem_intRange.mpr hy2, rfl⟩⟩

lemma mem_bucketEntries {origin : Vec2} {bsx bsy : ℝ} {key : ℤ × ℤ}
    {l : List SnapEntry} {s : SnapEntry} :
    s ∈ bucketEntries origin bsx bsy key l
      ↔ s ∈ l ∧ bucketCoord origin bsx bsy s.2.1 = key := by
  induction l with
  | nil => simp [bucketEntries]
  | cons e rest ih =>
    unfold bucketEntries
    by_cases h : bucketCoord origin bsx bsy e.2.1 = key
    · rw [if_pos h]
      simp only [List.mem_cons]
      constructor
      · rintro (rfl | hs)
        · exact ⟨Or.inl rfl, h⟩
        · obtain ⟨h1, h2⟩ := ih.mp hs
          exact ⟨Or.inr h1, h2⟩
      · rintro ⟨rfl | h1, h2⟩
        · exact Or.inl rfl
        · exact Or.inr (ih.mpr ⟨h1, h2⟩)
    · rw [if_neg h]
      constructor
      · intro hs
        obtain ⟨h1, h2⟩ := ih.mp hs
        exact ⟨List.mem_cons_of_mem _ h1, h2⟩
      · rintro ⟨hmem, h2⟩
        rcases List.mem_cons.mp hmem with rfl | h1
        · exact absurd h2 h
        · exact ih.mpr ⟨h1, h2⟩

lemma mem_collectFrom {selfEnt : ℕ} {selfPos : Vec3} {sr : ℝ}
    {l : List SnapEntry} {t : Neighbor} :
    t ∈ collectFrom selfEnt selfPos sr l
      ↔ ∃ e, (e, t.1, t.2.1, t.2.2) ∈ l ∧ e ≠ selfEnt
          ∧ Vec3.distSq selfPos t.1 ≤ (sr + t.2.2) * (sr + t.2.2) := by
  obtain ⟨tp, tv, tr⟩ := t
  induction l with
  | nil => simp [collectFrom]
  | cons s rest ih =>
    obtain ⟨e0, p0, v0, r0⟩ := s
    unfold collectFrom
    by_cases h : e0 ≠ selfEnt ∧ Vec3.distSq selfPos p0 ≤ (sr + r0) * (sr + r0)
    · rw [if_pos h]
      simp only [List.mem_cons]
      constructor
      · rintro (heq | hs)
        · injection heq with h1 h2
          injection h2 with h2a h2b
          subst h1
          subst h2a
          subst h2b
          exact ⟨e0, Or.inl rfl, h.1, h.2⟩
        · obtain ⟨e, h1, h2, h3⟩ := ih.mp hs
          exact ⟨e, Or.inr h1, h2, h3⟩
      · rintro ⟨e, hmem | hmem, h2, h3⟩
        · simp only [Prod.mk.injEq] at hmem
          obtain ⟨he, hp, hv, hr⟩ := hmem
          subst hp
          subst hv
          subst hr
          exact Or.inl rfl
        · exact Or.inr (ih.mpr ⟨e, hmem, h2, h3⟩)
    · rw [if_neg h]
      constructor
      · intro hs
        obtain ⟨e, h1, h2, h3⟩ := ih.mp hs
        exact ⟨e, List.mem_cons_of_mem _ h1, h2, h3⟩
      · rintro ⟨e, hmem, h2, h3⟩
        rcases List.mem_cons.mp hmem with heq | h1
        · simp only [Prod.mk.injEq] at heq
          obtain ⟨he, hp, hv, hr⟩ := heq
          subst he
          subst hp
          subst hv
          subst hr
          exact absurd ⟨h2, h3⟩ h
        · exact ih.mpr ⟨e, h1, h2, h3⟩

/-- Coverage of the bucket window: a world position within `sr` of the
querying position on an axis lands within `ceil(sr / bucket_size)` buckets of
the querying bucket on that axis. -/
lemma floor_window {o bs p q sr : ℝ} (hbs : 0 < bs) (h : |q - p| ≤ sr) :
    ⌊(p - o) / bs⌋ - ⌈sr / bs⌉ ≤ ⌊(q - o) / bs⌋
      ∧ ⌊(q - o) / bs⌋ ≤ ⌊(p - o) / bs⌋ + ⌈sr / bs⌉ := by
  obtain ⟨h1, h2⟩ := abs_le.mp h
  constructor
  · apply Int.le_floor.mpr
    push_cast
    have ha := Int.floor_le ((p - o) / bs)
    have hb := Int.le_ceil (sr / bs)
    have hq2 : (p - o) / bs - sr / bs ≤ (q - o) / bs := by
      rw [div_sub_div_same]
      exact (div_le_div_right hbs).mpr (by linarith)
    linarith
  · have hflt : (q - o) / bs < ((⌊(p - o) / bs⌋ + ⌈sr / bs⌉ + 1 : ℤ) : ℝ) := by
      push_cast
      have ha := Int.lt_floor_add_one ((p - o) / bs)
      have hb := Int.le_ceil (sr / bs)
      have hq2 : (q - o) / bs ≤ (p - o) / bs + sr / bs := by
        rw [div_add_div_same]
        exact (div_le_div_right hbs).mpr (by linarith)
      linarith
    have := Int.floor_lt.mpr hflt
    omega

/-- Characterization of the neighbor query when all snapshot radii are zero:
an entry is collected exactly when it is a non-self snapshot entry within the
squared-distance test, independent of the (positive) bucket sizes. -/
lemma queryNeighbors_mem {origin : Vec2} {bsx bsy sr : ℝ} {snap : List SnapEntry}
    {selfEnt : ℕ} {selfPos : Vec3} {t : Neighbor}
    (hbx : 0 < bsx) (hby : 0 < bsy) (hsr : 0 ≤ sr)
    (hrad : ∀ s ∈ snap, s.2.2.2 = 0) :
    t ∈ queryNeighbors origin bsx bsy snap selfEnt selfPos sr
      ↔ ∃ e, (e, t.1, t.2.1, t.2.2) ∈ snap ∧ e ≠ selfEnt
          ∧ Vec3.distSq selfPos t.1 ≤ (sr + t.2.2) * (sr + t.2.2) := by
  unfold queryNeighbors
  rw [mem_foldr_append]
  constructor
  · rintro ⟨k, hk, ht⟩
    obtain ⟨e, hmem, hne, hd⟩ := mem_collectFrom.mp ht
    exact ⟨e, (mem_bucketEntries.mp hmem).1, hne, hd⟩
  · rintro ⟨e, hmem, hne, hd⟩
    have hr0 : t.2.2 = 0 := hrad _ hmem
    have hd0 : Vec3.distSq selfPos t.1 ≤ sr * sr := by
      rw [hr0, add_zero] at hd
      exact hd
    have hdu : (selfPos.x - t.1.x) * (selfPos.x - t.1.x)
        + (selfPos.y - t.1.y) * (selfPos.y - t.1.y)
        + (selfPos.z - t.1.z) * (selfPos.z - t.1.z) ≤ sr * sr := by
      have h := hd0
      unfold Vec3.distSq Vec3.sub Vec3.lengthSq at h
      exact h
    have hdx : |t.1.x - selfPos.x| ≤ sr := by
      rw [abs_le]
      constructor <;>
        nlinarith [sq_nonneg (selfPos.y - t.1.y), sq_nonneg (selfPos.z - t.1.z)]
    have hdz : |t.1.z - selfPos.z| ≤ sr := by
      rw [abs_le]
      constructor <;>
        nlinarith [sq_nonneg (selfPos.y - t.1.y), sq_nonneg (selfPos.x - t.1.x)]
    have hwx := floor_window (o := origin.x) (p := selfPos.x) (q := t.1.x) hbx hdx
    have hwz := floor_window (o := origin.y) (p := selfPos.z) (q := t.1.z) hby hdz
    refine ⟨bucketCoord origin bsx bsy t.1, ?_,
      mem_collectFrom.mpr ⟨e, mem_bucketEntries.mpr ⟨hmem, rfl⟩, hne, hd⟩⟩
    show (⌊(t.1.x - origin.x) / bsx⌋, ⌊(t.1.z - origin.y) / bsy⌋)
      ∈ windowKeys (bucketCoord origin bsx bsy selfPos).1
          (bucketCoord origin bsx bsy selfPos).2 ⌈sr / bsx⌉ ⌈sr / bsy⌉
    rw [mem_windowKeys]
    exact ⟨⟨hwx.1, hwx.2⟩, ⟨hwz.1, hwz.2⟩⟩

/-- C4 (amended): for zero neighbor radii the query collects exactly the
non-self snapshot entries passing the squared-distance test, so the result is
invariant across bucket sizes; with positive neighbor radii the window
expansion (which ignores the neighbor radius) can miss in-range neighbors, so
the amendment restricts the claim to radius-zero snapshots. -/
theorem c4_amended_bucket_invariance (origin : Vec2) (bsx1 bsy1 bsx2 bsy2 sr : ℝ)
    (snap : List SnapEntry) (selfEnt : ℕ) (selfPos : Vec3) (t : Neighbor)
    (h1x : 0 < bsx1) (h1y : 0 < bsy1) (h2x : 0 < bsx2) (h2y : 0 < bsy2)
    (hsr : 0 ≤ sr) (hrad : ∀ s ∈ snap, s.2.2.2 = 0) :
    (t ∈ queryNeighbors origin bsx1 bsy1 snap selfEnt selfPos sr
        ↔ ∃ e, (e, t.1, t.2.1, t.2.2) ∈ snap ∧ e ≠ selfEnt
            ∧ Vec3.distSq selfPos t.1 ≤ (sr + t.2.2) * (sr + t.2.2))
      ∧ (t ∈ queryNeighbors origin bsx1 bsy1 snap selfEnt selfPos sr
          ↔ t ∈ queryNeighbors origin bsx2 bsy2 snap selfEnt selfPos sr) :=
  ⟨queryNeighbors_mem h1x h1y hsr hrad,
   (queryNeighbors_mem h1x h1y hsr hrad).trans (queryNeighbors_mem h2x h2y hsr hrad).symm⟩

/-- Witness for the amended C4 with bucket sizes 1 and 2 and a radius-0
neighbor. -/
theorem c4_amended_bucket_invariance_witness :
    ((⟨3, 0, 0⟩, Vec3.zero, (0 : ℝ)) ∈ queryNeighbors ⟨0, 0⟩ 1 1 snapD 0 Vec3.zero 4
        ↔ ∃ e, (e, (⟨3, 0, 0⟩ : Vec3), Vec3.zero, (0 : ℝ)) ∈ snapD ∧ e ≠ 0
            ∧ Vec3.distSq Vec3.zero ⟨3, 0, 0⟩ ≤ ((4 : ℝ) + 0) * ((4 : ℝ) + 0))
      ∧ ((⟨3, 0, 0⟩, Vec3.zero, (0 : ℝ)) ∈ queryNeighbors ⟨0, 0⟩ 1 1 snapD 0 Vec3.zero 4
          ↔ (⟨3, 0, 0⟩, Vec3.zero, (0 : ℝ)) ∈ queryNeighbors ⟨0, 0⟩ 2 2 snapD 0 Vec3.zero 4) :=
  c4_amended_bucket_invariance ⟨0, 0⟩ 1 1 2 2 4 snapD 0 Vec3.zero
    (⟨3, 0, 0⟩, Vec3.zero, 0) (by norm_num) (by norm_num) (by norm_num) (by norm_num)
    (by norm_num)
    (by
      intro s hs
      unfold snapD at hs
      rcases List.mem_singleton.mp hs with rfl
      rfl)

lemma c4_eval_bs1 : queryNeighbors ⟨0, 0⟩ 1 1 snapC 0 Vec3.zero 0 = [] := by
  have hb : bucketCoord ⟨0, 0⟩ 1 1 Vec3.zero = (0, 0) := by
    unfold bucketCoord
    norm_num [Vec3.zero]
  have hb5 : bucketCoord ⟨0, 0⟩ 1 1 (⟨5, 0, 0⟩ : Vec3) = (5, 0) := by
    unfold bucketCoord
    norm_num
  have hbe : bucketEntries ⟨0, 0⟩ 1 1 (0, 0) snapC = [(0, Vec3.zero, Vec3.zero, 1)] := by
    simp only [snapC, bucketEntries]
    rw [if_pos hb, if_neg (by rw [hb5]; decide)]
  unfold queryNeighbors
  rw [hb]
  norm_num
  rw [show windowKeys 0 0 0 0 = [((0 : ℤ), (0 : ℤ))] from rfl]
  simp only [List.foldr_cons, List.foldr_nil, List.append_nil]
  rw [hbe]
  simp only [collectFrom]
  rw [if_neg (fun hand => hand.1 rfl)]

lemma c4_eval_bs10 : queryNeighbors ⟨0, 0⟩ 10 10 snapC 0 Vec3.zero 0
    = [((⟨5, 0, 0⟩ : Vec3), Vec3.zero, (10 : ℝ))] := by
  have hb : bucketCoord ⟨0, 0⟩ 10 10 Vec3.zero = (0, 0) := by
    unfold bucketCoord
    norm_num [Vec3.zero]
  have hb5 : bucketCoord ⟨0, 0⟩ 10 10 (⟨5, 0, 0⟩ : Vec3) = (0, 0) := by
    unfold bucketCoord
    norm_num
  have hbe : bucketEntries ⟨0, 0⟩ 10 10 (0, 0) snapC = snapC := by
    simp only [snapC, bucketEntries]
    rw [if_pos hb, if_pos hb5]
  unfold queryNeighbors
  rw [hb]
  norm_num
  rw [show windowKeys 0 0 0 0 = [((0 : ℤ), (0 : ℤ))] from rfl]
  simp only [List.foldr_cons, List.foldr_nil, List.append_nil]
  rw [hbe]
  simp only [snapC, collectFrom]
  rw [if_neg (fun hand => hand.1 rfl)]
  rw [if_pos ⟨by decide, by
    unfold Vec3.distSq Vec3.sub Vec3.lengthSq
    norm_num [Vec3.zero]⟩]

/-- C4 is false as stated: the window expansion uses only the sensing range,
not the neighbor's radius, so a large-radius neighbor inside the collection
range `(sensor_range + radius)²` can land outside the visited window for a
small bucket size while being found for a large one; with sensor range 0 and
a radius-10 neighbor at `(5,0,0)` the query returns nothing for bucket size 1
but returns the neighbor for bucket size 10. -/
theorem c4_counterexample :
    queryNeighbors ⟨0, 0⟩ 1 1 snapC 0 Vec3.zero 0
      ≠ queryNeighbors ⟨0, 0⟩ 10 10 snapC 0 Vec3.zero 0 := by
  rw [c4_eval_bs1, c4_eval_bs10]
  simp

lemma foldr_append_nil {α β : Type} (f : α → List β) (l : List α)
    (h : ∀ a ∈ l, f a = []) : l.foldr (fun a acc => f a ++ acc) [] = [] := by
  induction l with
  | nil => rfl
  | cons a rest ih =>
    rw [List.foldr_cons, h a (List.mem_cons_self a rest), List.nil_append]
    exact ih (fun b hb => h b (List.mem_cons_of_mem a hb))

/-- An agent whose snapshot contains only itself finds no neighbors: the
query skips the querying entity in every visited bucket. -/
lemma query_self_only (origin : Vec2) (bsx bsy : ℝ) (e : ℕ) (p v : Vec3) (r : ℝ)
    (q : Vec3) (sr : ℝ) :
    queryNeighbors origin bsx bsy [(e, p, v, r)] e q sr = [] := by
  unfold queryNeighbors
  apply foldr_append_nil
  intro k _
  by_cases h : bucketCoord origin bsx bsy p = k
  · rw [show bucketEntries origin bsx bsy k [(e, p, v, r)] = [(e, p, v, r)] by
      simp only [bucketEntries]
      rw [if_pos h]]
    simp only [collectFrom]
    rw [if_neg (fun hand => hand.1 rfl)]
  · rw [show bucketEntries origin bsx bsy k [(e, p, v, r)] = [] by
      simp only [bucketEntries]
      rw [if_neg h]]
    rfl

lemma c1_neighbors : neighborsFor envA 0 stA = [] :=
  query_self_only ⟨0, 0⟩ 10 10 0 Vec3.zero Vec3.zero (5 / 2) Vec3.zero 8

lemma c1_dist : Vec3.dist Vec3.zero ⟨100, 0, 0⟩ = 100 := by
  unfold Vec3.dist
  rw [show Vec3.distSq Vec3.zero ⟨100, 0, 0⟩ = 100 * 100 by
    unfold Vec3.distSq Vec3.sub Vec3.lengthSq
    norm_num [Vec3.zero]]
  exact sqrtEval (by norm_num) rfl

lemma speedScale_far : speedScale 8 100 = 1 := by
  unfold speedScale
  rw [max_eq_left (by norm_num [f32Epsilon] : f32Epsilon ≤ (100 : ℝ))]
  rw [if_neg (by rw [max_eq_left (by norm_num : (0.1 : ℝ) ≤ 8 * 2)]; norm_num)]

lemma c1_preferred :
    preferredVelocity (envA.sample stA.pos) stA.pos envA.dest stA.settings
      = ⟨50, 0, 0⟩ := by
  unfold preferredVelocity
  rw [show envA.sample stA.pos = (⟨1, 0⟩ : Vec2) from rfl,
    show ((⟨1, 0⟩ : Vec2).x : ℝ) = 1 from rfl, show ((⟨1, 0⟩ : Vec2).y : ℝ) = 0 from rfl,
    normalizeOrZero_unitX,
    show stA.pos = Vec3.zero from rfl, show envA.dest = (⟨100, 0, 0⟩ : Vec3) from rfl,
    c1_dist, show stA.settings.sensorRange = (8 : ℝ) from rfl, speedScale_far,
    show stA.settings.preferredSpeed = (50 : ℝ) from rfl]
  simp [Vec3.smul]

lemma c1_solved :
    solveOrca (⟨50, 0, 0⟩ : Vec3) stA.vel
      (buildOrcaConstraints stA.pos stA.vel stA.settings [] envA.dt)
      stA.settings.maxSpeed = ⟨50, 0, 0⟩ := by
  rw [show buildOrcaConstraints stA.pos stA.vel stA.settings [] envA.dt = [] from rfl]
  rw [solveOrca_nil _ _ _ rfl (by norm_num [stA, settingsA])]
  exact clampEval_le _ _ (by norm_num [Vec3.lengthSq, stA, settingsA])

lemma c1_integrate :
    integrate settingsA (1 / 10) Vec3.zero (⟨50, 0, 0⟩ : Vec3) Vec3.zero
      = ⟨5, 0, 0⟩ := by
  rw [integrate_eq]
  rw [show Vec3.add (⟨50, 0, 0⟩ : Vec3) Vec3.zero = (⟨50, 0, 0⟩ : Vec3) by
    simp [Vec3.add, Vec3.zero]]
  rw [clampEval_le (⟨50, 0, 0⟩ : Vec3) settingsA.maxSpeed
    (by norm_num [Vec3.lengthSq, settingsA])]
  rw [show Vec3.sub (⟨50, 0, 0⟩ : Vec3) Vec3.zero = (⟨50, 0, 0⟩ : Vec3) by
    simp [Vec3.sub, Vec3.zero]]
  rw [clampEval_le (⟨50, 0, 0⟩ : Vec3) settingsA.maxAccel
    (by norm_num [Vec3.lengthSq, settingsA])]
  rw [show Vec3.add Vec3.zero (Vec3.smul (1 / 10) (⟨50, 0, 0⟩ : Vec3))
      = (⟨5, 0, 0⟩ : Vec3) by
    simp [Vec3.add, Vec3.smul, Vec3.zero]
    norm_num]
  exact clampEval_le (⟨5, 0, 0⟩ : Vec3) (settingsA.maxSpeed + f32Epsilon)
    (by norm_num [Vec3.lengthSq, settingsA, f32Epsilon])

lemma c1_step : stepFor envA 0 stA = ⟨5, 0, 0⟩ := by
  unfold stepFor
  rw [c1_neighbors, stepAgent_eq, c1_preferred, c1_solved,
    show separationOf stA.pos stA.settings.radius envA.dt [] = Vec3.zero from rfl,
    show stA.settings = settingsA from rfl, show envA.dt = (1 / 10 : ℝ) from rfl,
    show stA.vel = Vec3.zero from rfl]
  exact c1_integrate

lemma c1_run : (runUnits envA sigmaA [0]).2 = [(0, (⟨5, 0, 0⟩ : Vec3))] := by
  rw [runUnits_cons_some envA sigmaA 0 [] stA rfl]
  simp only [runUnits_nil, c1_step]

/-- C1 is false as stated: in the end-to-end scenario the tick produces the
velocity `(5,0,0)`, not approximately `(10,0,0)`; the produced velocity is a
full 5 world units per second away from the claimed one, because the code
clamps the velocity difference itself (50 ≤ max_accel = 100, so no clamp) and
then multiplies by `dt = 0.1`, rather than limiting the change to
`max_accel·dt = 10` as the claim's arithmetic assumes. -/
theorem c1_counterexample :
    (runUnits envA sigmaA [0]).2 = [(0, (⟨5, 0, 0⟩ : Vec3))]
      ∧ Vec3.dist ⟨5, 0, 0⟩ ⟨10, 0, 0⟩ = 5 := by
  refine ⟨c1_run, ?_⟩
  unfold Vec3.dist
  rw [show Vec3.distSq (⟨5, 0, 0⟩ : Vec3) (⟨10, 0, 0⟩ : Vec3) = 5 * 5 by
    unfold Vec3.distSq Vec3.sub Vec3.lengthSq
    norm_num]
  exact sqrtEval (by norm_num) rfl

/-- C1 (amended): one tick of the steering pass on the scenario agent
(velocity `(0,0,0)`, preferred speed 50, max speed 60, max accel 100, radius
2.5, sensor range 8, flow direction `(1,0)`, far destination, no neighbors,
`dt = 0.1`) produces the new velocity exactly `(5, 0, 0)`: the desired
velocity `(50,0,0)` minus the current velocity has magnitude 50, below
`max_accel = 100`, so the acceleration is not clamped and the velocity
advances by `50 * 0.1 = 5`. -/
theorem c1_amended_new_velocity :
    (runUnits envA sigmaA [0]).2 = [(0, (⟨5, 0, 0⟩ : Vec3))] := c1_run
